import Mathlib

/-!
Shallow embedding of the complementary-code rule-application engine of
`navitia_model` (`src/apply_rules.rs`), together with proofs about it.

Rust source structures embedded here:
* `ObjectType` and `ComplementaryCode` (with their derived `Ord`, which is
  lexicographic over the fields in declaration order);
* `read_complementary_code_rules_files`, which reads rule files row by row,
  warns (and continues) on rows that fail to deserialize, is fatal on a file
  that cannot be opened, and deduplicates records through a `BTreeSet`;
* `insert_code`, which resolves a record's target in a `CollectionWithId`
  and inserts the `(object_system, object_code)` pair into the entity's
  code set, warning when the target id is not found;
* `apply_rules`, the orchestrator, which dispatches each record to the
  collection selected by its `object_type` and finally serializes the
  report and writes it to the report path.

External collaborators (`Report` from `crate::utils`, `CollectionWithId`
from `crate::collection`, the `Codes` trait, the csv/serde row
deserialization, and the file system) are not part of the given sources;
they are modelled from the specification, as marked on each definition.
The `BTreeSet` of records is modelled as a strictly sorted list with
ordered insertion, and file-system reads are modelled by giving each rule
file its optional file-name component and, when the file can be opened,
its list of raw rows.
-/

namespace NavitiaModel

/-- `ObjectType` from `apply_rules.rs`: the closed set of entity kinds a
rule row may target. Variant order is declaration order, which the derived
Rust `Ord` uses. -/
inductive ObjectType : Type where
  | Line : ObjectType
  | Route : ObjectType
  | StopPoint : ObjectType
  | StopArea : ObjectType
deriving DecidableEq, Repr

/-- Rank of a variant in declaration order; this is the derived Rust `Ord`
on a fieldless enum. -/
def ObjectType.toNat : ObjectType → Nat
  | .Line => 0
  | .Route => 1
  | .StopPoint => 2
  | .StopArea => 3

/-- `ObjectType::as_str` from `apply_rules.rs`: the stable snake-case tag
of each variant, used in warning messages. -/
def ObjectType.as_str : ObjectType → String
  | .Line => "line"
  | .Route => "route"
  | .StopPoint => "stop_point"
  | .StopArea => "stop_area"

instance : LinearOrder ObjectType :=
  LinearOrder.lift' ObjectType.toNat
    (fun a b h => by cases a <;> cases b <;> simp_all [ObjectType.toNat])

/-- `ComplementaryCode` from `apply_rules.rs`: the parsed representation of
one rule row. -/
structure ComplementaryCode : Type where
  object_type : ObjectType
  object_id : String
  object_system : String
  object_code : String
deriving DecidableEq, Repr

/-- The lexicographic key of a record: the four fields in declaration
order, matching the derived Rust `Ord` on the struct. String fields are
keyed by their character data: Rust's byte-lexicographic `Ord` on UTF-8
strings coincides with lexicographic order on the code points. -/
def ComplementaryCode.key (c : ComplementaryCode) :
    ObjectType ×ₗ List Char ×ₗ List Char ×ₗ List Char :=
  toLex (c.object_type,
    toLex (c.object_id.data, toLex (c.object_system.data, c.object_code.data)))

instance : LinearOrder ComplementaryCode :=
  LinearOrder.lift' ComplementaryCode.key
    (fun a b h => by
      simp only [ComplementaryCode.key, toLex_inj, Prod.mk.injEq] at h
      obtain ⟨h1, h2, h3, h4⟩ := h
      cases a
      cases b
      simp_all
      exact ⟨String.ext h2, String.ext h3, String.ext h4⟩)

/-- Ordered duplicate-free insertion: the model of `BTreeSet::insert` on
the strictly sorted list that models the set's contents. -/
def insertSorted (c : ComplementaryCode) : List ComplementaryCode → List ComplementaryCode
  | [] => [c]
  | x :: xs =>
    if c < x then c :: x :: xs
    else if c = x then x :: xs
    else x :: insertSorted c xs

/-- The two report categories used by `apply_rules.rs`. Modelled from the
spec: `ReportType` lives in `crate::utils`, which is not among the given
sources for this part; the two categories are "rule file read error"
(`ComplementaryCodeRulesRead`) and "target object not found"
(`ComplementaryObjectNotFound`). -/
inductive ReportType : Type where
  | ComplementaryCodeRulesRead : ReportType
  | ComplementaryObjectNotFound : ReportType
deriving DecidableEq, Repr

/-- Modelled from the spec: `Report` from `crate::utils` is an ordered,
append-only sequence of (message, category) warnings, created empty at the
start of a run. -/
structure Report : Type where
  warnings : List (String × ReportType)
deriving DecidableEq, Repr

/-- `Report::default()`: the empty report. -/
def Report.default : Report := ⟨[]⟩

/-- Modelled from the spec: `Report::add_warning` appends one
(message, category) pair to the report. -/
def Report.add_warning (r : Report) (msg : String) (t : ReportType) : Report :=
  ⟨r.warnings ++ [(msg, t)]⟩

/-- Modelled from the spec: a transit entity as `insert_code` sees it
through the `Id` and `Codes` traits — an id, a code set of
`(object_system, object_code)` pairs, and the entity's remaining fields
abstracted into `payload`. -/
structure Entity : Type where
  id : String
  codes : List (String × String)
  payload : String
deriving DecidableEq, Repr

/-- Modelled from the spec: `Codes::codes_mut().insert(pair)` has set
semantics — inserting a pair that is already present is a no-op. -/
def Entity.insertCodePair (e : Entity) (p : String × String) : Entity :=
  if p ∈ e.codes then e else { e with codes := e.codes ++ [p] }

/-- Modelled from the spec: `CollectionWithId<T>` is a typed container of
entities supporting id-to-index lookup and in-place mutation at an
index. -/
structure CollectionWithId : Type where
  entities : List Entity
deriving DecidableEq, Repr

/-- Index of the first entity bearing the given id, if any. -/
def findIdxOfId : List Entity → String → Option Nat
  | [], _ => none
  | e :: es, s => if e.id = s then some 0 else (findIdxOfId es s).map (· + 1)

/-- Modelled from the spec: `CollectionWithId::get_idx`, the
`lookup_index_by_id(id) -> optional index` operation. -/
def CollectionWithId.get_idx (c : CollectionWithId) (s : String) : Option Nat :=
  findIdxOfId c.entities s

/-- Apply a function to the entity at one index, leaving the rest of the
list unchanged. -/
def modifyIdx (f : Entity → Entity) : List Entity → Nat → List Entity
  | [], _ => []
  | x :: xs, 0 => f x :: xs
  | x :: xs, n + 1 => x :: modifyIdx f xs n

/-- `insert_code` from `apply_rules.rs`: resolve the record's target id in
the collection; when absent, record one "target object not found" warning
and return; when present, insert the `(object_system, object_code)` pair
into the entity's code set. -/
def insert_code (collection : CollectionWithId) (code : ComplementaryCode)
    (report : Report) : CollectionWithId × Report :=
  match collection.get_idx code.object_id with
  | none =>
    (collection,
      report.add_warning
        ("Error inserting code: object_codes.txt: object=" ++ code.object_type.as_str ++
          ",  object_id=" ++ code.object_id ++ " not found")
        ReportType.ComplementaryObjectNotFound)
  | some idx =>
    (⟨modifyIdx (fun e => e.insertCodePair (code.object_system, code.object_code))
        collection.entities idx⟩,
      report)

/-- One raw csv row as the serde deserializer sees it: each of the four
columns either present or missing. Modelled from the spec: the csv/serde
layer is an external collaborator. -/
structure RawRow : Type where
  object_type : Option String
  object_id : Option String
  object_system : Option String
  object_code : Option String
deriving DecidableEq, Repr

/-- The serde mapping of the snake-case tag to an `ObjectType` variant
(`rename_all = "snake_case"`); any other tag is a deserialization
error. -/
def parseObjectType (s : String) : Option ObjectType :=
  if s = "line" then some ObjectType.Line
  else if s = "route" then some ObjectType.Route
  else if s = "stop_point" then some ObjectType.StopPoint
  else if s = "stop_area" then some ObjectType.StopArea
  else none

/-- Deserializing one row into a `ComplementaryCode`: fails when a field
is missing or when the entity-kind tag is outside the closed set. -/
def parseRow (r : RawRow) : Except String ComplementaryCode :=
  match r.object_type, r.object_id, r.object_system, r.object_code with
  | some t, some i, some s, some c =>
    match parseObjectType t with
    | some ot => Except.ok ⟨ot, i, s, c⟩
    | none => Except.error ("unknown variant for field object_type: " ++ t)
  | _, _, _, _ => Except.error "missing field"

/-- One rule file as the reader sees it: `fileName` models
`path.file_name()` (absent for a path with no final normal component) and
`contents` models `csv::Reader::from_path` (absent when the file cannot be
opened). -/
structure RuleFile : Type where
  fileName : Option String
  contents : Option (List RawRow)
deriving DecidableEq, Repr

/-- Outcome of a run: a normal return, a propagated fatal error, or a
panic (the `unwrap()` on a missing file name). -/
inductive RunResult (α : Type) : Type where
  | ok : α → RunResult α
  | fatal : String → RunResult α
  | panicked : RunResult α
deriving DecidableEq, Repr

/-- Rust's `Debug` rendering of the file name, as interpolated by the
warning message. -/
def debugQuote (s : String) : String := "\"" ++ s ++ "\""

/-- The row loop of `read_complementary_code_rules_files`: each row either
deserializes and is inserted into the ordered set, or produces one
"rule file read error" warning naming the file (panicking when the path
has no file-name component) and the loop continues. -/
def processRows (fileName : Option String) :
    List RawRow → List ComplementaryCode → Report →
      RunResult (List ComplementaryCode × Report)
  | [], codes, report => RunResult.ok (codes, report)
  | r :: rest, codes, report =>
    match parseRow r with
    | Except.ok c => processRows fileName rest (insertSorted c codes) report
    | Except.error e =>
      match fileName with
      | none => RunResult.panicked
      | some n =>
        processRows fileName rest codes
          (report.add_warning ("Error reading " ++ debugQuote n ++ ": " ++ e)
            ReportType.ComplementaryCodeRulesRead)

/-- The file loop of `read_complementary_code_rules_files`: a file that
cannot be opened is fatal for the whole run; otherwise its rows feed the
shared ordered set. -/
def readFiles : List RuleFile → List ComplementaryCode → Report →
    RunResult (List ComplementaryCode × Report)
  | [], codes, report => RunResult.ok (codes, report)
  | f :: fs, codes, report =>
    match f.contents with
    | none => RunResult.fatal "cannot open rule file"
    | some rows =>
      match processRows f.fileName rows codes report with
      | RunResult.ok (codes2, report2) => readFiles fs codes2 report2
      | RunResult.fatal e => RunResult.fatal e
      | RunResult.panicked => RunResult.panicked

/-- `read_complementary_code_rules_files` from `apply_rules.rs`: reads all
rule files into one `BTreeSet` (modelled as a strictly sorted list) and
yields its contents in ascending order. -/
def read_complementary_code_rules_files (rule_files : List RuleFile)
    (report : Report) : RunResult (List ComplementaryCode × Report) :=
  readFiles rule_files [] report

/-- `Collections` from `crate::model`, restricted to the four collections
`apply_rules` touches. Modelled from the spec: the model type itself is
an external collaborator. -/
structure Collections : Type where
  lines : CollectionWithId
  routes : CollectionWithId
  stop_points : CollectionWithId
  stop_areas : CollectionWithId
deriving DecidableEq, Repr

/-- The dispatch in the body of `apply_rules`: each record is applied to
the collection selected by its `object_type`. -/
def applyOne (collections : Collections) (code : ComplementaryCode)
    (report : Report) : Collections × Report :=
  match code.object_type with
  | ObjectType.Line =>
    let r := insert_code collections.lines code report
    ({ collections with lines := r.1 }, r.2)
  | ObjectType.Route =>
    let r := insert_code collections.routes code report
    ({ collections with routes := r.1 }, r.2)
  | ObjectType.StopPoint =>
    let r := insert_code collections.stop_points code report
    ({ collections with stop_points := r.1 }, r.2)
  | ObjectType.StopArea =>
    let r := insert_code collections.stop_areas code report
    ({ collections with stop_areas := r.1 }, r.2)

/-- The `for code in codes` loop of `apply_rules`. -/
def applyCodes (collections : Collections) :
    List ComplementaryCode → Report → Collections × Report
  | [], report => (collections, report)
  | c :: rest, report =>
    let r := applyOne collections c report
    applyCodes r.1 rest r.2

/-- Modelled from the spec: the report category tags as serialized. -/
def reportTypeTag : ReportType → String
  | ReportType.ComplementaryCodeRulesRead => "rule file read error"
  | ReportType.ComplementaryObjectNotFound => "target object not found"

/-- Modelled from the spec: `serde_json::to_string_pretty(&report)`, a
deterministic structured rendering of the ordered warning list. -/
def serializeReport (r : Report) : String :=
  "[" ++
    String.intercalate ","
      (r.warnings.map (fun w => debugQuote w.1 ++ ":" ++ debugQuote (reportTypeTag w.2))) ++
    "]"

/-- `apply_rules` from `apply_rules.rs`: read and deduplicate the rule
files, apply every record to its collection, then serialize the report.
The third component of a successful result is the serialized report text
written to the report path by `fs::write`. -/
def apply_rules (collections : Collections) (rule_files : List RuleFile) :
    RunResult (Collections × Report × String) :=
  match read_complementary_code_rules_files rule_files Report.default with
  | RunResult.fatal e => RunResult.fatal e
  | RunResult.panicked => RunResult.panicked
  | RunResult.ok (codes, report) =>
    let r := applyCodes collections codes report
    RunResult.ok (r.1, r.2, serializeReport r.2)

/-- Effect of one row on the ordered set of records. -/
def rowStep (codes : List ComplementaryCode) (r : RawRow) : List ComplementaryCode :=
  match parseRow r with
  | Except.ok c => insertSorted c codes
  | Except.error _ => codes

/-- The warning a row contributes, if it fails to deserialize, for a file
named `n`. -/
def rowWarn (n : String) (r : RawRow) : Option (String × ReportType) :=
  match parseRow r with
  | Except.ok _ => none
  | Except.error e =>
    some ("Error reading " ++ debugQuote n ++ ": " ++ e,
      ReportType.ComplementaryCodeRulesRead)

/-- The successfully deserialized records of a row list, in row order. -/
def parsedRows (rows : List RawRow) : List ComplementaryCode :=
  rows.filterMap (fun r => (parseRow r).toOption)

/-- The successfully deserialized records of all the openable rows of a
file list, in file and row order. -/
def parsedRecords : List RuleFile → List ComplementaryCode
  | [] => []
  | f :: fs => parsedRows (f.contents.getD []) ++ parsedRecords fs

/-- Frame relation between an entity before and after a possible code
insertion: id and remaining fields unchanged, the code set never shrinks,
and it grows by at most the inserted pair. -/
def entityFrame (e e' : Entity) (p : String × String) : Prop :=
  e'.id = e.id ∧ e'.payload = e.payload ∧
  (∀ q ∈ e.codes, q ∈ e'.codes) ∧
  (e'.codes = e.codes ∨ e'.codes = e.codes ++ [p])

/-- Frame relation between a collection before and after `insert_code`: no
entity is created or removed, at most one position differs, and every
position is either unchanged or related by `entityFrame`. -/
def collFrame (c c' : CollectionWithId) (p : String × String) : Prop :=
  c'.entities.length = c.entities.length ∧
  (∃ touched : Nat, ∀ j : Nat, j ≠ touched → c'.entities[j]? = c.entities[j]?) ∧
  ∀ j : Nat, c'.entities[j]? = c.entities[j]? ∨
    ∃ e e', c.entities[j]? = some e ∧ c'.entities[j]? = some e' ∧ entityFrame e e' p

/-- Concrete fixture: a stop point with an empty code set. -/
def wEntity : Entity := ⟨"SP1", [], "x"⟩

/-- Concrete fixture: a collection holding only `wEntity`. -/
def wColl : CollectionWithId := ⟨[wEntity]⟩

/-- Concrete fixture: collections whose only entity is the stop point
`SP1`. -/
def wColls : Collections := ⟨⟨[]⟩, ⟨[]⟩, wColl, ⟨[]⟩⟩

/-- Concrete fixture: `wColls` after `("NAV", "42")` is attached to
`SP1`. -/
def wCollsDone : Collections := ⟨⟨[]⟩, ⟨[]⟩, ⟨[⟨"SP1", [("NAV", "42")], "x"⟩]⟩, ⟨[]⟩⟩

/-- Concrete fixture: a record targeting the existing stop point. -/
def wCode : ComplementaryCode := ⟨ObjectType.StopPoint, "SP1", "NAV", "42"⟩

/-- Concrete fixture: a record targeting an absent stop point. -/
def wCodeMissing : ComplementaryCode := ⟨ObjectType.StopPoint, "SP2", "NAV", "43"⟩

/-- Concrete fixture: a row that deserializes to `wCode`. -/
def wRowGood : RawRow := ⟨some "stop_point", some "SP1", some "NAV", some "42"⟩

/-- Concrete fixture: a row that deserializes to `wCodeMissing`. -/
def wRowGood2 : RawRow := ⟨some "stop_point", some "SP2", some "NAV", some "43"⟩

/-- Concrete fixture: a row with an entity-kind tag outside the closed
set. -/
def wRowBad : RawRow := ⟨some "zone", some "SP1", some "NAV", some "42"⟩

/-- Concrete fixture: an openable rule file holding one good row. -/
def wFile : RuleFile := ⟨some "rules.csv", some [wRowGood]⟩

/-- Concrete fixture: a second openable rule file holding one good row. -/
def wFileB : RuleFile := ⟨some "rules2.csv", some [wRowGood2]⟩

/-- Concrete fixture: a rule file that cannot be opened. -/
def wFileBad : RuleFile := ⟨some "rules.csv", none⟩

/-! ### Helper lemmas about the embedded operations -/

/-- Sanity: the order on records is the lexicographic order over the four
fields in declaration order. -/
theorem ComplementaryCode.lt_iff (a b : ComplementaryCode) :
    a < b ↔
      a.object_type < b.object_type ∨
      (a.object_type = b.object_type ∧
        (a.object_id < b.object_id ∨
          (a.object_id = b.object_id ∧
            (a.object_system < b.object_system ∨
              (a.object_system = b.object_system ∧ a.object_code < b.object_code))))) := by
  show a.key < b.key ↔ _
  cases a
  cases b
  simp [ComplementaryCode.key, Prod.Lex.lt_iff, String.lt_iff_toList_lt,
    String.toList, String.ext_iff]

theorem mem_insertSorted (a c : ComplementaryCode) :
    ∀ l : List ComplementaryCode, a ∈ insertSorted c l ↔ a = c ∨ a ∈ l := by
  intro l
  induction l with
  | nil => simp [insertSorted]
  | cons x xs ih =>
    rw [insertSorted]
    by_cases h1 : c < x
    · simp [h1]
    · by_cases h2 : c = x
      · rw [if_neg h1, if_pos h2]
        subst h2
        simp only [List.mem_cons]
        tauto
      · rw [if_neg h1, if_neg h2]
        simp only [List.mem_cons, ih]
        tauto

theorem sorted_insertSorted (c : ComplementaryCode) :
    ∀ l : List ComplementaryCode, l.Sorted (· < ·) →
      (insertSorted c l).Sorted (· < ·) := by
  intro l
  induction l with
  | nil => intro _; simp [insertSorted]
  | cons x xs ih =>
    intro hs
    rw [List.sorted_cons] at hs
    obtain ⟨hx, hxs⟩ := hs
    rw [insertSorted]
    by_cases h1 : c < x
    · rw [if_pos h1, List.sorted_cons]
      refine ⟨?_, ?_⟩
      · intro b hb
        rcases List.mem_cons.mp hb with rfl | hb
        · exact h1
        · exact lt_trans h1 (hx b hb)
      · rw [List.sorted_cons]
        exact ⟨hx, hxs⟩
    · by_cases h2 : c = x
      · rw [if_neg h1, if_pos h2, List.sorted_cons]
        exact ⟨hx, hxs⟩
      · rw [if_neg h1, if_neg h2, List.sorted_cons]
        refine ⟨?_, ih hxs⟩
        intro b hb
        rcases (mem_insertSorted b c xs).mp hb with rfl | hb
        · rcases lt_trichotomy b x with h | h | h
          · exact absurd h h1
          · exact absurd h h2
          · exact h
        · exact hx b hb

theorem insertSorted_of_mem (c : ComplementaryCode) :
    ∀ l : List ComplementaryCode, l.Sorted (· < ·) → c ∈ l →
      insertSorted c l = l := by
  intro l
  induction l with
  | nil => intro _ h; simp at h
  | cons x xs ih =>
    intro hs hc
    rw [List.sorted_cons] at hs
    obtain ⟨hx, hxs⟩ := hs
    rcases List.mem_cons.mp hc with rfl | hc
    · rw [insertSorted, if_neg (lt_irrefl c), if_pos rfl]
    · have hcx : x < c := hx c hc
      have h1 : ¬ c < x := fun h => lt_irrefl x (lt_trans hcx h)
      have h2 : ¬ c = x := fun h => lt_irrefl x (by rw [h] at hcx; exact hcx)
      rw [insertSorted, if_neg h1, if_neg h2, ih hxs hc]

/-- Two strictly sorted lists of records with the same members are
equal. -/
theorem sorted_eq_of_mem_iff {l₁ l₂ : List ComplementaryCode}
    (s₁ : l₁.Sorted (· < ·)) (s₂ : l₂.Sorted (· < ·))
    (h : ∀ a, a ∈ l₁ ↔ a ∈ l₂) : l₁ = l₂ := by
  haveI : IsIrrefl ComplementaryCode (· < ·) := ⟨lt_irrefl⟩
  haveI : IsAntisymm ComplementaryCode (· < ·) :=
    ⟨fun a b h1 h2 => absurd h2 (lt_asymm h1)⟩
  exact List.eq_of_perm_of_sorted
    ((List.perm_ext_iff_of_nodup s₁.nodup s₂.nodup).mpr h) s₁ s₂


theorem length_modifyIdx (f : Entity → Entity) :
    ∀ (l : List Entity) (i : Nat), (modifyIdx f l i).length = l.length := by
  intro l
  induction l with
  | nil => intro i; rfl
  | cons x xs ih =>
    intro i
    cases i with
    | zero => rfl
    | succ n => simp [modifyIdx, ih n]

theorem getElem?_modifyIdx_ne (f : Entity → Entity) :
    ∀ (l : List Entity) (i j : Nat), j ≠ i → (modifyIdx f l i)[j]? = l[j]? := by
  intro l
  induction l with
  | nil => intro i j _; rfl
  | cons x xs ih =>
    intro i j hne
    cases i with
    | zero =>
      cases j with
      | zero => exact absurd rfl hne
      | succ m => simp [modifyIdx]
    | succ n =>
      cases j with
      | zero => simp [modifyIdx]
      | succ m =>
        simp only [modifyIdx, List.getElem?_cons_succ]
        exact ih n m (fun h => hne (by rw [h]))

theorem getElem?_modifyIdx_self (f : Entity → Entity) :
    ∀ (l : List Entity) (i : Nat), (modifyIdx f l i)[i]? = l[i]?.map f := by
  intro l
  induction l with
  | nil => intro i; rfl
  | cons x xs ih =>
    intro i
    cases i with
    | zero => simp [modifyIdx]
    | succ n => simp [modifyIdx, ih n]

theorem findIdxOfId_eq_some :
    ∀ (l : List Entity) (s : String) (i : Nat), findIdxOfId l s = some i →
      ∃ e, l[i]? = some e ∧ e.id = s := by
  intro l
  induction l with
  | nil => intro s i h; simp [findIdxOfId] at h
  | cons x xs ih =>
    intro s i h
    rw [findIdxOfId] at h
    by_cases hx : x.id = s
    · rw [if_pos hx] at h
      cases h
      exact ⟨x, by simp, hx⟩
    · rw [if_neg hx] at h
      cases hfind : findIdxOfId xs s with
      | none => rw [hfind] at h; simp at h
      | some n =>
        rw [hfind] at h
        simp only [Option.map_some'] at h
        obtain ⟨e, he, hid⟩ := ih s n hfind
        cases h
        exact ⟨e, by simpa using he, hid⟩

theorem Entity.insertCodePair_id (e : Entity) (p : String × String) :
    (e.insertCodePair p).id = e.id := by
  rw [Entity.insertCodePair]
  by_cases h : p ∈ e.codes
  · rw [if_pos h]
  · rw [if_neg h]

theorem Entity.insertCodePair_payload (e : Entity) (p : String × String) :
    (e.insertCodePair p).payload = e.payload := by
  rw [Entity.insertCodePair]
  by_cases h : p ∈ e.codes
  · rw [if_pos h]
  · rw [if_neg h]

theorem Entity.mem_insertCodePair_self (e : Entity) (p : String × String) :
    p ∈ (e.insertCodePair p).codes := by
  rw [Entity.insertCodePair]
  by_cases h : p ∈ e.codes
  · rw [if_pos h]; exact h
  · rw [if_neg h]; simp

theorem Entity.insertCodePair_of_mem (e : Entity) (p : String × String)
    (h : p ∈ e.codes) : e.insertCodePair p = e := by
  rw [Entity.insertCodePair, if_pos h]

theorem Entity.mem_insertCodePair_of_mem (e : Entity) (p q : String × String)
    (h : q ∈ e.codes) : q ∈ (e.insertCodePair p).codes := by
  rw [Entity.insertCodePair]
  by_cases hp : p ∈ e.codes
  · rw [if_pos hp]; exact h
  · rw [if_neg hp]; simp [h]

theorem Entity.insertCodePair_codes_cases (e : Entity) (p : String × String) :
    (e.insertCodePair p).codes = e.codes ∨
      (e.insertCodePair p).codes = e.codes ++ [p] := by
  rw [Entity.insertCodePair]
  by_cases h : p ∈ e.codes
  · rw [if_pos h]; exact Or.inl rfl
  · rw [if_neg h]; exact Or.inr rfl

theorem insert_code_fst_report_irrel (collection : CollectionWithId)
    (code : ComplementaryCode) (r r' : Report) :
    (insert_code collection code r).1 = (insert_code collection code r').1 := by
  rw [insert_code, insert_code]
  cases collection.get_idx code.object_id <;> rfl

theorem insert_code_snd_of_found (collection : CollectionWithId)
    (code : ComplementaryCode) (report : Report) (idx : Nat)
    (h : collection.get_idx code.object_id = some idx) :
    (insert_code collection code report).2 = report := by
  rw [insert_code, h]

theorem processRows_some_eq (n : String) :
    ∀ (rows : List RawRow) (codes : List ComplementaryCode) (report : Report),
      processRows (some n) rows codes report =
        RunResult.ok (rows.foldl rowStep codes,
          ⟨report.warnings ++ rows.filterMap (rowWarn n)⟩) := by
  intro rows
  induction rows with
  | nil => intro codes report; simp [processRows]
  | cons r rest ih =>
    intro codes report
    rw [processRows]
    cases hp : parseRow r with
    | ok c =>
      simp [ih, rowStep, rowWarn, hp]
    | error e =>
      simp [ih, rowStep, rowWarn, hp, Report.add_warning]

theorem processRows_ok_codes :
    ∀ (fn : Option String) (rows : List RawRow) (codes : List ComplementaryCode)
      (report : Report) (codes2 : List ComplementaryCode) (report2 : Report),
      processRows fn rows codes report = RunResult.ok (codes2, report2) →
        codes2 = rows.foldl rowStep codes := by
  intro fn rows
  induction rows with
  | nil =>
    intro codes report codes2 report2 h
    rw [processRows] at h
    cases h
    rfl
  | cons r rest ih =>
    intro codes report codes2 report2 h
    rw [processRows] at h
    cases hp : parseRow r with
    | ok c =>
      rw [hp] at h
      simpa [rowStep, hp] using ih _ _ _ _ h
    | error e =>
      rw [hp] at h
      cases fn with
      | none => simp at h
      | some n =>
        simpa [rowStep, hp] using ih _ _ _ _ h

theorem processRows_ne_panicked_of_some (n : String) (rows : List RawRow)
    (codes : List ComplementaryCode) (report : Report) :
    processRows (some n) rows codes report ≠ RunResult.panicked := by
  rw [processRows_some_eq]
  intro h
  cases h

theorem sorted_foldl_rowStep :
    ∀ (rows : List RawRow) (codes : List ComplementaryCode),
      codes.Sorted (· < ·) → (rows.foldl rowStep codes).Sorted (· < ·) := by
  intro rows
  induction rows with
  | nil => intro codes h; exact h
  | cons r rest ih =>
    intro codes h
    rw [List.foldl_cons]
    apply ih
    rw [rowStep]
    cases parseRow r with
    | ok c => exact sorted_insertSorted c codes h
    | error e => exact h

theorem mem_foldl_rowStep (a : ComplementaryCode) :
    ∀ (rows : List RawRow) (codes : List ComplementaryCode),
      a ∈ rows.foldl rowStep codes ↔ a ∈ codes ∨ a ∈ parsedRows rows := by
  intro rows
  induction rows with
  | nil => intro codes; simp [parsedRows]
  | cons r rest ih =>
    intro codes
    rw [List.foldl_cons, ih]
    cases hp : parseRow r with
    | ok c =>
      simp [rowStep, hp, parsedRows, mem_insertSorted, Except.toOption]
      tauto
    | error e =>
      simp [rowStep, hp, parsedRows, Except.toOption]

theorem foldl_rowStep_of_subset :
    ∀ (rows : List RawRow) (codes : List ComplementaryCode),
      codes.Sorted (· < ·) → (∀ c ∈ parsedRows rows, c ∈ codes) →
        rows.foldl rowStep codes = codes := by
  intro rows
  induction rows with
  | nil => intro codes _ _; rfl
  | cons r rest ih =>
    intro codes hs hsub
    rw [List.foldl_cons]
    cases hp : parseRow r with
    | ok c =>
      have hc : c ∈ codes := by
        apply hsub
        simp [parsedRows, hp, Except.toOption]
      simp only [rowStep, hp]
      rw [insertSorted_of_mem c codes hs hc]
      apply ih codes hs
      intro d hd
      apply hsub
      simp only [parsedRows, List.filterMap_cons] at *
      rw [hp]
      simp only [Except.toOption]
      exact List.mem_cons_of_mem _ hd
    | error e =>
      simp only [rowStep, hp]
      apply ih codes hs
      intro d hd
      apply hsub
      simp only [parsedRows, List.filterMap_cons] at *
      rw [hp]
      simpa [Except.toOption] using hd

theorem readFiles_ok_invariant :
    ∀ (files : List RuleFile) (codes : List ComplementaryCode) (report : Report)
      (codes2 : List ComplementaryCode) (report2 : Report),
      readFiles files codes report = RunResult.ok (codes2, report2) →
      codes.Sorted (· < ·) →
      codes2.Sorted (· < ·) ∧
        ∀ a, a ∈ codes2 ↔ a ∈ codes ∨ a ∈ parsedRecords files := by
  intro files
  induction files with
  | nil =>
    intro codes report codes2 report2 h hs
    rw [readFiles] at h
    cases h
    exact ⟨hs, by simp [parsedRecords]⟩
  | cons f fs ih =>
    intro codes report codes2 report2 h hs
    rw [readFiles] at h
    cases hc : f.contents with
    | none => simp only [hc] at h; cases h
    | some rows =>
      simp only [hc] at h
      cases hpr : processRows f.fileName rows codes report with
      | ok p =>
        obtain ⟨codes1, report1⟩ := p
        simp only [hpr] at h
        have hcodes1 : codes1 = rows.foldl rowStep codes :=
          processRows_ok_codes f.fileName rows codes report codes1 report1 hpr
        have hs1 : codes1.Sorted (· < ·) := by
          rw [hcodes1]
          exact sorted_foldl_rowStep rows codes hs
        obtain ⟨hs2, hmem⟩ := ih codes1 report1 codes2 report2 h hs1
        refine ⟨hs2, ?_⟩
        intro a
        rw [hmem a, hcodes1, mem_foldl_rowStep]
        simp only [parsedRecords, hc, Option.getD_some, List.mem_append]
        tauto
      | fatal e => simp only [hpr] at h; cases h
      | panicked => simp only [hpr] at h; cases h

theorem readFiles_append :
    ∀ (fs₁ fs₂ : List RuleFile) (codes : List ComplementaryCode) (report : Report),
      readFiles (fs₁ ++ fs₂) codes report =
        match readFiles fs₁ codes report with
        | RunResult.ok (codes1, report1) => readFiles fs₂ codes1 report1
        | RunResult.fatal e => RunResult.fatal e
        | RunResult.panicked => RunResult.panicked := by
  intro fs₁
  induction fs₁ with
  | nil => intro fs₂ codes report; simp [readFiles]
  | cons f fs ih =>
    intro fs₂ codes report
    rw [List.cons_append]
    simp only [readFiles]
    cases hc : f.contents with
    | none => simp only [hc]
    | some rows =>
      simp only [hc]
      cases hpr : processRows f.fileName rows codes report with
      | ok p =>
        obtain ⟨codes1, report1⟩ := p
        simp only [hpr]
        exact ih fs₂ codes1 report1
      | fatal e => simp only [hpr]
      | panicked => simp only [hpr]

theorem readFiles_total :
    ∀ (files : List RuleFile), (∀ f ∈ files, f.contents.isSome ∧ f.fileName.isSome) →
      ∀ (codes : List ComplementaryCode) (report : Report),
        ∃ codes2 report2,
          readFiles files codes report = RunResult.ok (codes2, report2) := by
  intro files
  induction files with
  | nil => intro _ codes report; exact ⟨codes, report, rfl⟩
  | cons f fs ih =>
    intro h codes report
    obtain ⟨hc, hn⟩ := h f (List.mem_cons_self f fs)
    obtain ⟨rows, hrows⟩ := Option.isSome_iff_exists.mp hc
    obtain ⟨n, hname⟩ := Option.isSome_iff_exists.mp hn
    obtain ⟨codes2, report2, hrec⟩ :=
      ih (fun g hg => h g (List.mem_cons_of_mem f hg))
        (rows.foldl rowStep codes)
        ⟨report.warnings ++ rows.filterMap (rowWarn n)⟩
    refine ⟨codes2, report2, ?_⟩
    simp only [readFiles, hrows, hname, processRows_some_eq, hrec]

theorem readFiles_ne_panicked :
    ∀ (files : List RuleFile),
      (∀ f ∈ files, f.contents.isSome → f.fileName.isSome) →
      ∀ (codes : List ComplementaryCode) (report : Report),
        readFiles files codes report ≠ RunResult.panicked := by
  intro files
  induction files with
  | nil =>
    intro _ codes report h
    rw [readFiles] at h
    cases h
  | cons f fs ih =>
    intro hwf codes report h
    rw [readFiles] at h
    cases hc : f.contents with
    | none => rw [hc] at h; cases h
    | some rows =>
      rw [hc] at h
      have hn : f.fileName.isSome :=
        hwf f (List.mem_cons_self f fs) (by rw [hc]; rfl)
      obtain ⟨n, hname⟩ := Option.isSome_iff_exists.mp hn
      simp only [hname, processRows_some_eq] at h
      exact ih (fun g hg => hwf g (List.mem_cons_of_mem f hg)) _ _ h

theorem readFiles_fatal_of_unopenable :
    ∀ (files : List RuleFile),
      (∀ f ∈ files, f.contents.isSome → f.fileName.isSome) →
      (∃ f ∈ files, f.contents = none) →
      ∀ (codes : List ComplementaryCode) (report : Report),
        ∃ e, readFiles files codes report = RunResult.fatal e := by
  intro files
  induction files with
  | nil =>
    intro _ hbad codes report
    obtain ⟨f, hf, _⟩ := hbad
    simp at hf
  | cons f fs ih =>
    intro hwf hbad codes report
    cases hc : f.contents with
    | none =>
      refine ⟨"cannot open rule file", ?_⟩
      rw [readFiles, hc]
    | some rows =>
      have hn : f.fileName.isSome :=
        hwf f (List.mem_cons_self f fs) (by rw [hc]; rfl)
      obtain ⟨n, hname⟩ := Option.isSome_iff_exists.mp hn
      have hbad2 : ∃ g ∈ fs, g.contents = none := by
        obtain ⟨g, hg, hgc⟩ := hbad
        rcases List.mem_cons.mp hg with rfl | hg
        · rw [hc] at hgc; cases hgc
        · exact ⟨g, hg, hgc⟩
      obtain ⟨e, he⟩ :=
        ih (fun g hg => hwf g (List.mem_cons_of_mem f hg)) hbad2
          (rows.foldl rowStep codes)
          ⟨report.warnings ++ rows.filterMap (rowWarn n)⟩
      refine ⟨e, ?_⟩
      simp only [readFiles, hc, hname, processRows_some_eq, he]

theorem applyOne_fst_report_irrel (collections : Collections)
    (code : ComplementaryCode) (r r' : Report) :
    (applyOne collections code r).1 = (applyOne collections code r').1 := by
  rw [applyOne, applyOne]
  cases code.object_type <;>
    simp [insert_code_fst_report_irrel _ _ r r']

theorem applyCodes_fst_report_irrel :
    ∀ (codes : List ComplementaryCode) (collections : Collections) (r r' : Report),
      (applyCodes collections codes r).1 = (applyCodes collections codes r').1 := by
  intro codes
  induction codes with
  | nil => intro collections r r'; rfl
  | cons c rest ih =>
    intro collections r r'
    rw [applyCodes, applyCodes]
    rw [applyOne_fst_report_irrel collections c r r']
    exact ih (applyOne collections c r').1 _ _

theorem modifyIdx_eq_of_fix (f : Entity → Entity) :
    ∀ (l : List Entity) (i : Nat) (x : Entity), l[i]? = some x → f x = x →
      modifyIdx f l i = l := by
  intro l
  induction l with
  | nil => intro i x h _; simp at h
  | cons y ys ih =>
    intro i x h hfix
    cases i with
    | zero =>
      simp only [List.getElem?_cons_zero, Option.some.injEq] at h
      subst h
      rw [modifyIdx, hfix]
    | succ n =>
      simp only [List.getElem?_cons_succ] at h
      rw [modifyIdx, ih n x h hfix]

theorem mem_parsedRecords (a : ComplementaryCode) :
    ∀ files : List RuleFile,
      a ∈ parsedRecords files ↔
        ∃ f ∈ files, a ∈ parsedRows (f.contents.getD []) := by
  intro files
  induction files with
  | nil => simp [parsedRecords]
  | cons f fs ih => simp [parsedRecords, ih]

theorem collFrame_refl (c : CollectionWithId) (p : String × String) :
    collFrame c c p :=
  ⟨rfl, ⟨0, fun _ _ => rfl⟩, fun _ => Or.inl rfl⟩

theorem insert_code_collFrame (collection : CollectionWithId)
    (code : ComplementaryCode) (report : Report) :
    collFrame collection (insert_code collection code report).1
      (code.object_system, code.object_code) := by
  rw [insert_code]
  cases h : collection.get_idx code.object_id with
  | none => exact collFrame_refl collection _
  | some idx =>
    refine ⟨length_modifyIdx _ _ _, ⟨idx, ?_⟩, ?_⟩
    · intro j hj
      exact getElem?_modifyIdx_ne _ _ _ _ hj
    · intro j
      by_cases hj : j = idx
      · subst hj
        rw [getElem?_modifyIdx_self]
        cases he : collection.entities[j]? with
        | none => exact Or.inl rfl
        | some e =>
          refine Or.inr ⟨e, e.insertCodePair (code.object_system, code.object_code),
            rfl, by rw [Option.map_some'], ?_⟩
          exact ⟨Entity.insertCodePair_id e _, Entity.insertCodePair_payload e _,
            fun q hq => Entity.mem_insertCodePair_of_mem e _ q hq,
            Entity.insertCodePair_codes_cases e _⟩
      · exact Or.inl (getElem?_modifyIdx_ne _ _ _ _ hj)

/-! ### Claim theorems -/

/-- C1: for every rule record whose `target_id` resolves in the selected
collection, `insert_code` inserts the `(object_system, object_code)` pair
into that entity's code set — afterwards the pair is a member — and the
call returns without error (the report is untouched); when the pair was
already present the call is a no-op. -/
theorem insert_code_found_inserts_pair (collection : CollectionWithId)
    (code : ComplementaryCode) (report : Report) (idx : Nat)
    (h : collection.get_idx code.object_id = some idx) :
    (insert_code collection code report).2 = report ∧
    (∃ e, (insert_code collection code report).1.entities[idx]? = some e ∧
      (code.object_system, code.object_code) ∈ e.codes) ∧
    (∀ e₀, collection.entities[idx]? = some e₀ →
      (code.object_system, code.object_code) ∈ e₀.codes →
      insert_code collection code report = (collection, report)) := by
  obtain ⟨e₀, he₀, _⟩ := findIdxOfId_eq_some collection.entities code.object_id idx h
  refine ⟨insert_code_snd_of_found collection code report idx h, ?_, ?_⟩
  · simp only [insert_code, h]
    refine ⟨e₀.insertCodePair (code.object_system, code.object_code), ?_, ?_⟩
    · show (modifyIdx _ collection.entities idx)[idx]? = _
      rw [getElem?_modifyIdx_self, he₀, Option.map_some']
    · exact Entity.mem_insertCodePair_self e₀ _
  · intro e₁ he₁ hmem
    simp only [insert_code, h]
    rw [he₀] at he₁
    cases he₁
    rw [modifyIdx_eq_of_fix _ collection.entities idx e₀ he₀
      (Entity.insertCodePair_of_mem e₀ _ hmem)]

/-- C1 witness: the record `wCode` targets the stop point `SP1` present in
`wColl` at index 0. -/
theorem insert_code_found_inserts_pair_witness :
    wColl.get_idx wCode.object_id = some 0 ∧
    ((insert_code wColl wCode ⟨[]⟩).2 = ⟨[]⟩ ∧
      (∃ e, (insert_code wColl wCode ⟨[]⟩).1.entities[0]? = some e ∧
        (wCode.object_system, wCode.object_code) ∈ e.codes) ∧
      (∀ e₀, wColl.entities[0]? = some e₀ →
        (wCode.object_system, wCode.object_code) ∈ e₀.codes →
        insert_code wColl wCode ⟨[]⟩ = (wColl, ⟨[]⟩))) :=
  ⟨by decide, insert_code_found_inserts_pair wColl wCode ⟨[]⟩ 0 (by decide)⟩

/-- C4: for every rule record whose `target_id` does not resolve in the
selected collection, `insert_code` appends exactly one warning naming the
entity-kind tag and the unresolved id under the "target object not found"
category, mutates nothing, and returns normally. -/
theorem insert_code_not_found_warns (collection : CollectionWithId)
    (code : ComplementaryCode) (report : Report)
    (h : collection.get_idx code.object_id = none) :
    insert_code collection code report =
      (collection,
        ⟨report.warnings ++
          [("Error inserting code: object_codes.txt: object=" ++ code.object_type.as_str ++
            ",  object_id=" ++ code.object_id ++ " not found",
            ReportType.ComplementaryObjectNotFound)]⟩) := by
  rw [insert_code, h]
  rfl

/-- C4 witness: the record `wCodeMissing` targets `SP2`, absent from
`wColl`. -/
theorem insert_code_not_found_warns_witness :
    wColl.get_idx wCodeMissing.object_id = none ∧
    insert_code wColl wCodeMissing ⟨[]⟩ =
      (wColl,
        ⟨[] ++
          [("Error inserting code: object_codes.txt: object=" ++ wCodeMissing.object_type.as_str ++
            ",  object_id=" ++ wCodeMissing.object_id ++ " not found",
            ReportType.ComplementaryObjectNotFound)]⟩) :=
  ⟨by decide, insert_code_not_found_warns wColl wCodeMissing ⟨[]⟩ (by decide)⟩

/-- C5: within an opened rule file with a file name, the row loop returns
normally; every row that fails to deserialize contributes exactly one
warning — made of the file name and the parse error, under the
"rule file read error" category, as `rowWarn` spells out — and processing
continues, so the well-formed rows are still collected into the ordered
set. -/
theorem rule_file_bad_rows_warn_and_continue (n : String) (rows : List RawRow)
    (codes : List ComplementaryCode) (report : Report) :
    processRows (some n) rows codes report =
      RunResult.ok (rows.foldl rowStep codes,
        ⟨report.warnings ++ rows.filterMap (rowWarn n)⟩) ∧
    ∀ r ∈ rows, ∀ e, parseRow r = Except.error e →
      rowWarn n r =
        some ("Error reading " ++ debugQuote n ++ ": " ++ e,
          ReportType.ComplementaryCodeRulesRead) := by
  refine ⟨processRows_some_eq n rows codes report, ?_⟩
  intro r _ e he
  rw [rowWarn, he]

/-- C5 witness: one malformed row (`wRowBad`, unknown tag "zone") and one
well-formed row in the same file: one warning, the good record still
collected. -/
theorem rule_file_bad_rows_warn_and_continue_witness :
    processRows (some "rules.csv") [wRowBad, wRowGood] [] ⟨[]⟩ =
      RunResult.ok ([wRowBad, wRowGood].foldl rowStep [],
        ⟨[] ++ [wRowBad, wRowGood].filterMap (rowWarn "rules.csv")⟩) ∧
    ∀ r ∈ [wRowBad, wRowGood], ∀ e, parseRow r = Except.error e →
      rowWarn "rules.csv" r =
        some ("Error reading " ++ debugQuote "rules.csv" ++ ": " ++ e,
          ReportType.ComplementaryCodeRulesRead) :=
  rule_file_bad_rows_warn_and_continue "rules.csv" [wRowBad, wRowGood] [] ⟨[]⟩

/-- C10: the reader's warning path calls `unwrap()` on the path's file
name, modelled by the `panicked` outcome; under the precondition that
every rule file that opens successfully has a file-name component, the
panic branch is unreachable. -/
theorem read_rules_no_panic (files : List RuleFile) (report : Report)
    (h : ∀ f ∈ files, f.contents.isSome → f.fileName.isSome) :
    read_complementary_code_rules_files files report ≠ RunResult.panicked :=
  readFiles_ne_panicked files h [] report

/-- C10 witness: a file list made of one openable named file and one
unopenable file satisfies the precondition, and the reader does not
panic on it. -/
theorem read_rules_no_panic_witness :
    (∀ f ∈ [wFile, wFileBad], f.contents.isSome → f.fileName.isSome) ∧
    read_complementary_code_rules_files [wFile, wFileBad] ⟨[]⟩ ≠ RunResult.panicked :=
  ⟨by decide, read_rules_no_panic [wFile, wFileBad] ⟨[]⟩ (by decide)⟩

/-- C7: each dispatched application mutates at most one entity: every one
of the four collections is in the `collFrame` relation with its successor
— same length, at most one position changed, and a changed position only
gains at most the record's pair, keeping id and other fields — and the
three collections not selected by the record's entity kind are unchanged
outright. -/
theorem applyOne_frame_effect (collections : Collections)
    (code : ComplementaryCode) (report : Report) :
    collFrame collections.lines ((applyOne collections code report).1).lines
      (code.object_system, code.object_code) ∧
    collFrame collections.routes ((applyOne collections code report).1).routes
      (code.object_system, code.object_code) ∧
    collFrame collections.stop_points ((applyOne collections code report).1).stop_points
      (code.object_system, code.object_code) ∧
    collFrame collections.stop_areas ((applyOne collections code report).1).stop_areas
      (code.object_system, code.object_code) ∧
    (match code.object_type with
      | ObjectType.Line =>
        ((applyOne collections code report).1).routes = collections.routes ∧
        ((applyOne collections code report).1).stop_points = collections.stop_points ∧
        ((applyOne collections code report).1).stop_areas = collections.stop_areas
      | ObjectType.Route =>
        ((applyOne collections code report).1).lines = collections.lines ∧
        ((applyOne collections code report).1).stop_points = collections.stop_points ∧
        ((applyOne collections code report).1).stop_areas = collections.stop_areas
      | ObjectType.StopPoint =>
        ((applyOne collections code report).1).lines = collections.lines ∧
        ((applyOne collections code report).1).routes = collections.routes ∧
        ((applyOne collections code report).1).stop_areas = collections.stop_areas
      | ObjectType.StopArea =>
        ((applyOne collections code report).1).lines = collections.lines ∧
        ((applyOne collections code report).1).routes = collections.routes ∧
        ((applyOne collections code report).1).stop_points = collections.stop_points) := by
  rw [applyOne]
  cases code.object_type <;>
    exact ⟨by first | exact insert_code_collFrame _ _ _ | exact collFrame_refl _ _,
      by first | exact insert_code_collFrame _ _ _ | exact collFrame_refl _ _,
      by first | exact insert_code_collFrame _ _ _ | exact collFrame_refl _ _,
      by first | exact insert_code_collFrame _ _ _ | exact collFrame_refl _ _,
      ⟨rfl, rfl, rfl⟩⟩

/-- C2: for every list of rule files that can all be opened (and whose
paths carry a file-name component, so the warning path cannot panic), the
reader returns a sequence of records that is strictly ascending in the
records' total order — hence duplicate-free — and contains exactly the
distinct successfully parsed records of all files. -/
theorem read_rules_sorted_dedup (files : List RuleFile) (report : Report)
    (h : ∀ f ∈ files, f.contents.isSome ∧ f.fileName.isSome) :
    ∃ codes report2,
      read_complementary_code_rules_files files report =
        RunResult.ok (codes, report2) ∧
      codes.Sorted (· < ·) ∧ codes.Nodup ∧
      ∀ c, c ∈ codes ↔ c ∈ parsedRecords files := by
  obtain ⟨codes, report2, hok⟩ := readFiles_total files h [] report
  obtain ⟨hsorted, hmem⟩ :=
    readFiles_ok_invariant files [] report codes report2 hok List.sorted_nil
  refine ⟨codes, report2, hok, hsorted, ?_, ?_⟩
  · haveI : IsIrrefl ComplementaryCode (· < ·) := ⟨lt_irrefl⟩
    exact hsorted.nodup
  · intro c
    rw [hmem c]
    simp

/-- C2 witness: two openable named files, one record each. -/
theorem read_rules_sorted_dedup_witness :
    (∀ f ∈ [wFile, wFileB], f.contents.isSome ∧ f.fileName.isSome) ∧
    ∃ codes report2,
      read_complementary_code_rules_files [wFile, wFileB] ⟨[]⟩ =
        RunResult.ok (codes, report2) ∧
      codes.Sorted (· < ·) ∧ codes.Nodup ∧
      ∀ c, c ∈ codes ↔ c ∈ parsedRecords [wFile, wFileB] :=
  ⟨by decide, read_rules_sorted_dedup [wFile, wFileB] ⟨[]⟩ (by decide)⟩

/-- C3: when some rule file in the list cannot be opened (the others being
well-formed paths), `apply_rules` propagates a fatal error: the run ends
with `RunResult.fatal`, carrying no mutated collections and no written
report. -/
theorem apply_rules_fatal_on_unopenable (collections : Collections)
    (files : List RuleFile)
    (hwf : ∀ f ∈ files, f.contents.isSome → f.fileName.isSome)
    (hbad : ∃ f ∈ files, f.contents = none) :
    ∃ e, apply_rules collections files = RunResult.fatal e := by
  obtain ⟨e, he⟩ :=
    readFiles_fatal_of_unopenable files hwf hbad [] Report.default
  refine ⟨e, ?_⟩
  rw [apply_rules]
  simp only [read_complementary_code_rules_files] at he ⊢
  simp only [he]

/-- C3 witness: a good file followed by an unopenable one. -/
theorem apply_rules_fatal_on_unopenable_witness :
    (∀ f ∈ [wFile, wFileBad], f.contents.isSome → f.fileName.isSome) ∧
    (∃ f ∈ [wFile, wFileBad], f.contents = none) ∧
    ∃ e, apply_rules wColls [wFile, wFileBad] = RunResult.fatal e :=
  ⟨by decide, by decide,
    apply_rules_fatal_on_unopenable wColls [wFile, wFileBad] (by decide) (by decide)⟩

/-- C8: whenever every rule file opens (and carries a file name),
`apply_rules` returns success, whatever the rows and target lookups did,
and the successful result carries the serialized report — the report file
is written even when the warning list is empty. -/
theorem apply_rules_success_writes_report (collections : Collections)
    (files : List RuleFile)
    (h : ∀ f ∈ files, f.contents.isSome ∧ f.fileName.isSome) :
    ∃ collections2 report,
      apply_rules collections files =
        RunResult.ok (collections2, report, serializeReport report) := by
  obtain ⟨codes, report2, hok⟩ := readFiles_total files h [] Report.default
  refine ⟨(applyCodes collections codes report2).1,
    (applyCodes collections codes report2).2, ?_⟩
  rw [apply_rules]
  simp only [read_complementary_code_rules_files, hok]

/-- C8 witness: the empty file list produces zero warnings, and the empty
report is still serialized and written. -/
theorem apply_rules_success_writes_report_witness :
    (∀ f ∈ ([] : List RuleFile), f.contents.isSome ∧ f.fileName.isSome) ∧
    ∃ collections2 report,
      apply_rules wColls [] =
        RunResult.ok (collections2, report, serializeReport report) :=
  ⟨by decide, apply_rules_success_writes_report wColls [] (by decide)⟩

/-- C6: applying the same rule files twice — here, passing the file list
duplicated — yields the same final collections, hence identical code sets
on every entity: the deduplicated record list is unchanged and re-applying
each record is absorbed by the set semantics of the code sets. -/
theorem apply_rules_idempotent (collections : Collections)
    (files : List RuleFile) (c₁ c₂ : Collections) (r₁ r₂ : Report)
    (s₁ s₂ : String)
    (h₁ : apply_rules collections files = RunResult.ok (c₁, r₁, s₁))
    (h₂ : apply_rules collections (files ++ files) = RunResult.ok (c₂, r₂, s₂)) :
    c₂ = c₁ := by
  rw [apply_rules] at h₁ h₂
  simp only [read_complementary_code_rules_files] at h₁ h₂
  cases hr1 : readFiles files [] Report.default with
  | fatal e => rw [hr1] at h₁; simp at h₁
  | panicked => rw [hr1] at h₁; simp at h₁
  | ok p =>
    obtain ⟨codesA, repA⟩ := p
    simp only [hr1, RunResult.ok.injEq, Prod.mk.injEq] at h₁
    obtain ⟨hc₁, _, _⟩ := h₁
    rw [readFiles_append] at h₂
    simp only [hr1] at h₂
    cases hr2 : readFiles files codesA repA with
    | fatal e => rw [hr2] at h₂; simp at h₂
    | panicked => rw [hr2] at h₂; simp at h₂
    | ok q =>
      obtain ⟨codesB, repB⟩ := q
      simp only [hr2, RunResult.ok.injEq, Prod.mk.injEq] at h₂
      obtain ⟨hc₂, _, _⟩ := h₂
      obtain ⟨hsA, hmemA⟩ :=
        readFiles_ok_invariant files [] Report.default codesA repA hr1
          List.sorted_nil
      obtain ⟨hsB, hmemB⟩ :=
        readFiles_ok_invariant files codesA repA codesB repB hr2 hsA
      have hBA : codesB = codesA := by
        apply sorted_eq_of_mem_iff hsB hsA
        intro a
        rw [hmemB a]
        constructor
        · rintro (ha | ha)
          · exact ha
          · rw [hmemA a]
            exact Or.inr ha
        · intro ha
          exact Or.inl ha
      rw [← hc₁, ← hc₂, hBA]
      exact applyCodes_fst_report_irrel codesA collections repB repA

/-- C6 witness: one good file applied once and twice gives the same final
collections. -/
theorem apply_rules_idempotent_witness :
    apply_rules wColls [wFile] =
      RunResult.ok (wCollsDone, ⟨[]⟩, serializeReport ⟨[]⟩) ∧
    apply_rules wColls ([wFile] ++ [wFile]) =
      RunResult.ok (wCollsDone, ⟨[]⟩, serializeReport ⟨[]⟩) ∧
    wCollsDone = wCollsDone :=
  ⟨by decide, by decide,
    apply_rules_idempotent wColls [wFile] wCollsDone wCollsDone ⟨[]⟩ ⟨[]⟩
      (serializeReport ⟨[]⟩) (serializeReport ⟨[]⟩) (by decide) (by decide)⟩

/-- C9: the deduplicated record sequence is invariant under permutation of
the rule-file list: two successful reads over permuted file lists return
the same record sequence, because all files feed one shared ordered set
whose iteration order depends only on the records. -/
theorem read_rules_perm_invariant (files₁ files₂ : List RuleFile)
    (r₁ r₂ : Report) (codes₁ codes₂ : List ComplementaryCode)
    (rep₁ rep₂ : Report)
    (hperm : files₁.Perm files₂)
    (h₁ : read_complementary_code_rules_files files₁ r₁ = RunResult.ok (codes₁, rep₁))
    (h₂ : read_complementary_code_rules_files files₂ r₂ = RunResult.ok (codes₂, rep₂)) :
    codes₁ = codes₂ := by
  obtain ⟨hs₁, hmem₁⟩ :=
    readFiles_ok_invariant files₁ [] r₁ codes₁ rep₁ h₁ List.sorted_nil
  obtain ⟨hs₂, hmem₂⟩ :=
    readFiles_ok_invariant files₂ [] r₂ codes₂ rep₂ h₂ List.sorted_nil
  apply sorted_eq_of_mem_iff hs₁ hs₂
  intro a
  rw [hmem₁ a, hmem₂ a, mem_parsedRecords a files₁, mem_parsedRecords a files₂]
  constructor
  · rintro (ha | ⟨f, hf, ha⟩)
    · simp at ha
    · exact Or.inr ⟨f, hperm.mem_iff.mp hf, ha⟩
  · rintro (ha | ⟨f, hf, ha⟩)
    · simp at ha
    · exact Or.inr ⟨f, hperm.mem_iff.mpr hf, ha⟩

/-- C9 witness: the two-file list and its swap produce the same record
sequence. -/
theorem read_rules_perm_invariant_witness :
    [wFile, wFileB].Perm [wFileB, wFile] ∧
    read_complementary_code_rules_files [wFile, wFileB] ⟨[]⟩ =
      RunResult.ok ([wCode, wCodeMissing], ⟨[]⟩) ∧
    read_complementary_code_rules_files [wFileB, wFile] ⟨[]⟩ =
      RunResult.ok ([wCode, wCodeMissing], ⟨[]⟩) ∧
    ([wCode, wCodeMissing] : List ComplementaryCode) = [wCode, wCodeMissing] :=
  ⟨List.Perm.swap wFileB wFile [], by decide, by decide,
    read_rules_perm_invariant [wFile, wFileB] [wFileB, wFile] ⟨[]⟩ ⟨[]⟩
      [wCode, wCodeMissing] [wCode, wCodeMissing] ⟨[]⟩ ⟨[]⟩
      (List.Perm.swap wFileB wFile []) (by decide) (by decide)⟩

end NavitiaModel

